import Mathlib

/-!
Shallow embedding of `src/pipeline/pipeline.go` (package `pipeline` of the
gaia repository): the active-pipeline registry, the build-pipeline factory
and the artifact naming helper, together with theorems settling the
specification claims about them.
-/

namespace GaiaPipeline

/-- Modelled from the spec: `PipelineType` is "an enumerated tag identifying
the source language/toolchain of a pipeline (at minimum one variant is
active)".  The type itself lives in the `gaia` root package, which is not
under `src/`; the registered variant `GOLANG` and the unrecognized variant
(`UNKNOWN`, see the spec's "Unrecognized PipelineType" configuration error)
are modelled here. -/
inductive PipelineType where
  | GOLANG
  | UNKNOWN
deriving DecidableEq

/-- Modelled from the spec: the "canonical string form" of a pipeline type
(the `String()` method of `gaia.PipelineType`, not under `src/`), used by
`appendTypeToName` as the artifact-name suffix. -/
def PipelineType.str : PipelineType → String
  | .GOLANG => "golang"
  | .UNKNOWN => "unknown"

/-- Modelled from the spec: a `gaia.Pipeline` (not under `src/`) "represents
one pipeline definition known to the system", with "a unique human-readable
`Name` (used as the deduplication key)" and "a `Type` (PipelineType)".
`Type` is a Lean keyword, so the field is called `PType`. -/
structure Pipeline where
  Name : String
  PType : PipelineType
deriving DecidableEq

/-- `ActivePipelines` from `src/pipeline/pipeline.go`: "holds all active
pipelines".  The `sync.RWMutex` is modelled separately (see the lock model
below); the data is the `Pipelines` slice. -/
structure ActivePipelines where
  Pipelines : List Pipeline
deriving DecidableEq

/-- `tmpFolder` constant from `src/pipeline/pipeline.go`. -/
def tmpFolder : String := "tmp"

/-- `maxTimeoutMinutes` constant from `src/pipeline/pipeline.go`:
"Max minutes until the build process will be interrupted and marked as
failed". -/
def maxTimeoutMinutes : Nat := 60

/-- `typeDelimiter` constant from `src/pipeline/pipeline.go`: "defines the
delimiter in the file name to define the pipeline type". -/
def typeDelimiter : String := "_"

/-- The concrete `BuildPipelineGolang` struct.  Its definition is not under
`src/`; its `Type` field is visible from the composite literal
`&BuildPipelineGolang{Type: t}` in `NewBuildPipeline`. -/
structure BuildPipelineGolang where
  PType : PipelineType
deriving DecidableEq

/-- The dynamic value stored in a non-nil `BuildPipeline` interface variable:
currently the only implementation is `BuildPipelineGolang`. -/
inductive BuildPipeline where
  | golang (bp : BuildPipelineGolang)
deriving DecidableEq

/-- The declared `Type` field of the concrete implementation held by a
`BuildPipeline` interface value. -/
def BuildPipeline.declaredType : BuildPipeline → PipelineType
  | .golang bp => bp.PType

/-- `NewBuildPipeline` from `src/pipeline/pipeline.go`: `var bP BuildPipeline`
starts as the nil interface (`none`); the `switch t` assigns
`&BuildPipelineGolang{Type: t}` only in the `gaia.GOLANG` case. -/
def NewBuildPipeline (t : PipelineType) : Option BuildPipeline :=
  match t with
  | .GOLANG => some (.golang { PType := .GOLANG })
  | .UNKNOWN => none

/-- `NewActivePipelines` from `src/pipeline/pipeline.go`: constructs the
registry with `Pipelines: make([]gaia.Pipeline, 0)`, an empty slice. -/
def NewActivePipelines : ActivePipelines :=
  { Pipelines := [] }

/-- `ActivePipelines.Append` from `src/pipeline/pipeline.go`: under the
exclusive lock, `ap.Pipelines = append(ap.Pipelines, p)` adds `p` at the
end of the slice. -/
def ActivePipelines.Append (ap : ActivePipelines) (p : Pipeline) : ActivePipelines :=
  { ap with Pipelines := ap.Pipelines ++ [p] }

/-- A whole sequence of `Append` calls, in order. -/
def appendAll (ap : ActivePipelines) (ps : List Pipeline) : ActivePipelines :=
  ps.foldl ActivePipelines.Append ap

/-- `ActivePipelines.Iter` from `src/pipeline/pipeline.go`: the spawned
goroutine takes the lock and sends every element of `ap.Pipelines`, in
slice order, on the returned channel; the sequence of values a consumer
that drains the channel observes is exactly the slice at that moment. -/
def ActivePipelines.Iter (ap : ActivePipelines) : List Pipeline :=
  ap.Pipelines

/-- The `for pipeline := range ap.Iter()` loop body of
`ActivePipelines.Contains`: return `true` at the first element whose
`Name` equals `n`, `false` if the loop finishes. -/
def containsLoop : List Pipeline → String → Bool
  | [], _ => false
  | p :: ps, n => if p.Name == n then true else containsLoop ps n

/-- `ActivePipelines.Contains` from `src/pipeline/pipeline.go`: ranges over
`ap.Iter()` and returns at the first name match. -/
def ActivePipelines.Contains (ap : ActivePipelines) (n : String) : Bool :=
  containsLoop ap.Iter n

/-- `appendTypeToName` from `src/pipeline/pipeline.go`:
`fmt.Sprintf("%s%s%s", n, typeDelimiter, pType.String())`. -/
def appendTypeToName (n : String) (pType : PipelineType) : String :=
  n ++ typeDelimiter ++ pType.str

/-!
## Lock / channel model for `Iter` and `Contains`

`Iter` spawns a goroutine that takes the exclusive lock (`ap.Lock()`),
sends every element on an unbuffered channel, closes the channel and only
then releases the lock (`defer ap.Unlock()`).  On an unbuffered channel
each send blocks until a matching receive, while `close` never blocks, so
the goroutine reaches its unlock exactly when the consumer has received
all `ap.Pipelines.length` elements.  `Contains` receives elements until
its first name match and then abandons the channel.
-/

/-- Index of the first element whose `Name` equals `n` — the element at
which the `range` loop in `Contains` returns `true`. -/
def firstMatchIdx : List Pipeline → String → Option Nat
  | [], _ => none
  | p :: ps, n =>
    if p.Name == n then some 0 else (firstMatchIdx ps n).map (· + 1)

/-- How many channel receives `Contains` performs on the `Iter` channel:
up to and including the first match, or the whole sequence when there is
no match. -/
def containsReceives (ps : List Pipeline) (n : String) : Nat :=
  match firstMatchIdx ps n with
  | some i => i + 1
  | none => ps.length

/-- Whether the `Iter` goroutine reaches `close(c)` and its deferred
`ap.Unlock()`: on the unbuffered channel this happens exactly when the
consumer receives all elements sent. -/
def iterLockReleased (ps : List Pipeline) (receives : Nat) : Bool :=
  receives == ps.length

/-- Whether the registry's exclusive lock is released again after a
`Contains` call returns. -/
def lockReleasedAfterContains (ps : List Pipeline) (n : String) : Bool :=
  iterLockReleased ps (containsReceives ps n)

/-- Whether an operation that must acquire the registry's lock
(`Append`, `Contains`, the goroutine of a new `Iter`) blocks forever:
it does iff the lock was never released. -/
def opBlocksForever (lockReleased : Bool) : Bool :=
  !lockReleased

/-!
## Artifact-name decoding (modelled from the spec)

The spec requires the encoding to be invertible: "the type should be
recoverable by splitting on the delimiter and parsing the suffix".  No
decoder exists under `src/`, so it is modelled here: split the character
sequence at the last occurrence of the delimiter and parse the suffix as
a pipeline type.
-/

/-- Modelled from the spec: split a character list at the LAST occurrence
of `c`, returning the part before and the part after it; `none` when `c`
does not occur. -/
def splitAtLastDelim (c : Char) : List Char → Option (List Char × List Char)
  | [] => none
  | a :: rest =>
    match splitAtLastDelim c rest with
    | some (pre, suf) => some (a :: pre, suf)
    | none => if a = c then some ([], rest) else none

/-- Modelled from the spec: parse a canonical type string back to the
`PipelineType` it denotes. -/
def PipelineType.ofString (s : String) : Option PipelineType :=
  if s = "golang" then some .GOLANG
  else if s = "unknown" then some .UNKNOWN
  else none

/-- Modelled from the spec: decode an artifact name produced by
`appendTypeToName` by "splitting on the delimiter and parsing the
suffix" — the name is everything before the last delimiter, the type is
parsed from the suffix after it. -/
def parseArtifactName (s : String) : Option (String × PipelineType) :=
  match splitAtLastDelim '_' s.data with
  | none => none
  | some (pre, suf) =>
    match PipelineType.ofString (String.mk suf) with
    | none => none
    | some t => some (String.mk pre, t)

/-!
## ExecuteBuild timeout model (modelled from the spec)

The `BuildPipeline` interface in `src/` only declares
`ExecuteBuild(*gaia.CreatePipeline) error`; the concrete implementation
is not under `src/`.  The spec's timeout policy is modelled: the stage is
bounded by a ceiling of `maxTimeoutMinutes` (the constant from `src/`);
exceeding it terminates the compiler process and fails with
`BuildTimeoutError`, distinct from an ordinary `BuildError`.
-/

/-- Modelled from the spec: the error taxonomy of the lifecycle stages. -/
inductive BuildErrorKind where
  | EnvironmentError
  | BuildError
  | BuildTimeoutError
  | ArtifactError
deriving DecidableEq

/-- Modelled from the spec: the observable outcome of `ExecuteBuild` —
its result and whether the spawned compiler process is still running
afterwards. -/
structure ExecuteBuildOutcome where
  result : Except BuildErrorKind Unit
  processRunning : Bool

/-- Modelled from the spec: `ExecuteBuild` as a function of the
compilation's wall-clock duration and whether the compiler succeeds.
When the duration exceeds the ceiling the process is terminated and the
stage fails with `BuildTimeoutError`; otherwise the compiler's own result
decides between success and `BuildError`. -/
def executeBuildModel (elapsedMinutes : Nat) (compilerSucceeds : Bool) :
    ExecuteBuildOutcome :=
  if elapsedMinutes > maxTimeoutMinutes then
    { result := .error .BuildTimeoutError, processRunning := false }
  else if compilerSucceeds then
    { result := .ok (), processRunning := false }
  else
    { result := .error .BuildError, processRunning := false }

end GaiaPipeline

namespace GaiaPipeline

/-! ## Lemmas about the registry -/

theorem appendAll_pipelines (ap : ActivePipelines) (ps : List Pipeline) :
    (appendAll ap ps).Pipelines = ap.Pipelines ++ ps := by
  induction ps generalizing ap with
  | nil => simp [appendAll]
  | cons p ps ih =>
    simp [appendAll, List.foldl_cons] at *
    rw [ih]
    simp [ActivePipelines.Append, List.append_assoc]

theorem containsLoop_iff (ps : List Pipeline) (n : String) :
    containsLoop ps n = true ↔ ∃ p ∈ ps, p.Name = n := by
  induction ps with
  | nil => simp [containsLoop]
  | cons p ps ih =>
    simp only [containsLoop]
    by_cases h : p.Name == n
    · simp [h]
      exact Or.inl (by simpa using h)
    · simp [h, ih]
      intro hn
      exact absurd (by simp [hn]) h

/-! ## Lemmas about the naming helper -/

theorem splitAtLastDelim_eq_none (c : Char) (l : List Char) (h : c ∉ l) :
    splitAtLastDelim c l = none := by
  induction l with
  | nil => rfl
  | cons a rest ih =>
    simp only [List.mem_cons, not_or] at h
    simp [splitAtLastDelim, ih h.2, if_neg (Ne.symm h.1)]

theorem splitAtLastDelim_append (c : Char) (l1 l2 : List Char) (h : c ∉ l2) :
    splitAtLastDelim c (l1 ++ c :: l2) = some (l1, l2) := by
  induction l1 with
  | nil => simp [splitAtLastDelim, splitAtLastDelim_eq_none c l2 h]
  | cons a l1 ih => simp [splitAtLastDelim, ih]

theorem string_append_data (a b : String) : (a ++ b).data = a.data ++ b.data := by
  rfl

theorem string_mk_data (s : String) : String.mk s.data = s := by
  rfl

theorem appendTypeToName_data (n : String) (t : PipelineType) :
    (appendTypeToName n t).data = n.data ++ '_' :: (PipelineType.str t).data := by
  show (n ++ typeDelimiter ++ t.str).data = _
  rw [string_append_data, string_append_data, List.append_assoc]
  cases t <;> rfl

theorem str_not_mem_delim (t : PipelineType) : '_' ∉ (PipelineType.str t).data := by
  cases t <;> decide

theorem ofString_str (t : PipelineType) : PipelineType.ofString t.str = some t := by
  cases t <;> rfl

theorem parse_round_trip (n : String) (t : PipelineType) :
    parseArtifactName (appendTypeToName n t) = some (n, t) := by
  unfold parseArtifactName
  rw [appendTypeToName_data, splitAtLastDelim_append '_' n.data _ (str_not_mem_delim t)]
  simp [string_mk_data, ofString_str]

theorem appendTypeToName_injective (n1 n2 : String) (t1 t2 : PipelineType)
    (h : appendTypeToName n1 t1 = appendTypeToName n2 t2) : n1 = n2 ∧ t1 = t2 := by
  have hp := congrArg parseArtifactName h
  rw [parse_round_trip, parse_round_trip] at hp
  have := Option.some.inj hp
  exact ⟨congrArg Prod.fst this, congrArg Prod.snd this⟩

/-! ## Lemmas about the lock model -/

theorem containsLoop_of_firstMatchIdx (ps : List Pipeline) (n : String) (i : Nat)
    (h : firstMatchIdx ps n = some i) : containsLoop ps n = true := by
  induction ps generalizing i with
  | nil => simp [firstMatchIdx] at h
  | cons p ps ih =>
    by_cases hp : p.Name == n
    · simp [containsLoop, hp]
    · rw [firstMatchIdx] at h
      cases hm : firstMatchIdx ps n with
      | none => rw [hm] at h; simp [hp] at h
      | some j => simpa [containsLoop, hp] using ih j hm

/-! ## Claim theorems -/

/-- C1: For every registry state, `Contains n` returns true iff some entry
in the registry's sequence has `Name` equal to `n`; immediately after an
`Append` of a pipeline named `n` it returns true, and it returns false for
any name never appended. -/
theorem contains_spec (ap : ActivePipelines) (n : String) (p : Pipeline)
    (ps : List Pipeline) :
    (ap.Contains n = true ↔ ∃ q ∈ ap.Pipelines, q.Name = n)
    ∧ (p.Name = n → (ap.Append p).Contains n = true)
    ∧ ((∀ q ∈ ps, q.Name ≠ n) →
        (appendAll NewActivePipelines ps).Contains n = false) := by
  refine ⟨containsLoop_iff ap.Pipelines n, ?_, ?_⟩
  · intro hp
    rw [ActivePipelines.Contains, ActivePipelines.Iter, ActivePipelines.Append,
      containsLoop_iff]
    exact ⟨p, by simp, hp⟩
  · intro hps
    have : ¬ containsLoop (appendAll NewActivePipelines ps).Pipelines n = true := by
      rw [containsLoop_iff, appendAll_pipelines]
      rintro ⟨q, hq, hqn⟩
      exact hps q (by simpa [NewActivePipelines] using hq) hqn
    exact Bool.not_eq_true _ |>.mp this

theorem contains_spec_witness :
    ((Pipeline.mk "demo" .GOLANG).Name = "demo")
    ∧ (NewActivePipelines.Append (Pipeline.mk "demo" .GOLANG)).Contains "demo" = true
    ∧ (∀ q ∈ [Pipeline.mk "alpha" .GOLANG], q.Name ≠ "demo")
    ∧ (appendAll NewActivePipelines [Pipeline.mk "alpha" .GOLANG]).Contains "demo"
        = false := by
  have h := contains_spec NewActivePipelines "demo" (Pipeline.mk "demo" .GOLANG)
    [Pipeline.mk "alpha" .GOLANG]
  exact ⟨rfl, h.2.1 rfl, by decide, h.2.2 (by decide)⟩

/-- C2: Every `Append` adds exactly one entry at the end (even when an
entry with the same name already exists — no uniqueness is enforced);
after a sequence of `Append` calls on the fresh registry the final length
equals the number of calls and every appended pipeline is present under a
subsequent traversal. -/
theorem append_spec (ap : ActivePipelines) (ps : List Pipeline) (p : Pipeline) :
    ((ap.Append p).Pipelines = ap.Pipelines ++ [p])
    ∧ ((appendAll NewActivePipelines ps).Pipelines.length = ps.length)
    ∧ (∀ q ∈ ps, q ∈ (appendAll NewActivePipelines ps).Iter) := by
  refine ⟨rfl, ?_, ?_⟩
  · rw [appendAll_pipelines]; simp [NewActivePipelines]
  · intro q hq
    rw [ActivePipelines.Iter, appendAll_pipelines]
    simp [NewActivePipelines, hq]

theorem append_spec_witness :
    ((NewActivePipelines.Append (Pipeline.mk "demo" .GOLANG)).Pipelines
        = NewActivePipelines.Pipelines ++ [Pipeline.mk "demo" .GOLANG])
    ∧ ((appendAll NewActivePipelines
          [Pipeline.mk "demo" .GOLANG, Pipeline.mk "demo" .UNKNOWN]).Pipelines.length
        = 2)
    ∧ (Pipeline.mk "demo" .UNKNOWN)
        ∈ (appendAll NewActivePipelines
            [Pipeline.mk "demo" .GOLANG, Pipeline.mk "demo" .UNKNOWN]).Iter := by
  have h := append_spec NewActivePipelines
    [Pipeline.mk "demo" .GOLANG, Pipeline.mk "demo" .UNKNOWN]
    (Pipeline.mk "demo" .GOLANG)
  exact ⟨h.1, h.2.1, h.2.2 _ (by decide)⟩

/-- C3: A traversal started after `N` appends yields exactly the `N`
appended entries, in append order, and a second independent traversal over
the unchanged registry yields the same sequence. -/
theorem iter_spec (ps : List Pipeline) :
    ((appendAll NewActivePipelines ps).Iter = ps)
    ∧ ((appendAll NewActivePipelines ps).Iter.length = ps.length)
    ∧ ((appendAll NewActivePipelines ps).Iter
        = (appendAll NewActivePipelines ps).Iter) := by
  have h : (appendAll NewActivePipelines ps).Iter = ps := by
    rw [ActivePipelines.Iter, appendAll_pipelines]; simp [NewActivePipelines]
  exact ⟨h, by rw [h], rfl⟩

/-- C4: For every `PipelineType` with no registered implementation
`NewBuildPipeline` returns the nil interface; for the registered type
`GOLANG` it returns an instance whose declared `Type` field equals the
requested type. -/
theorem newBuildPipeline_spec (t : PipelineType) :
    (t ≠ .GOLANG → NewBuildPipeline t = none)
    ∧ (∃ bp, NewBuildPipeline .GOLANG = some bp
        ∧ bp.declaredType = .GOLANG) := by
  refine ⟨?_, ⟨.golang { PType := .GOLANG }, rfl, rfl⟩⟩
  intro ht
  cases t with
  | GOLANG => exact absurd rfl ht
  | UNKNOWN => rfl

theorem newBuildPipeline_spec_witness :
    (PipelineType.UNKNOWN ≠ .GOLANG)
    ∧ NewBuildPipeline .UNKNOWN = none
    ∧ (∃ bp, NewBuildPipeline .GOLANG = some bp
        ∧ bp.declaredType = .GOLANG) := by
  have h := newBuildPipeline_spec .UNKNOWN
  exact ⟨by decide, h.1 (by decide), h.2⟩

/-- C5: For every legal pipeline name (one not containing the delimiter)
and every `PipelineType`, decoding the encoded artifact name by splitting
on the delimiter and parsing the type suffix recovers exactly the original
name and type. -/
theorem parse_appendTypeToName (n : String) (t : PipelineType)
    (_legal : '_' ∉ n.data) :
    parseArtifactName (appendTypeToName n t) = some (n, t) :=
  parse_round_trip n t

theorem parse_appendTypeToName_witness :
    ('_' ∉ "demo".data)
    ∧ parseArtifactName (appendTypeToName "demo" .GOLANG)
        = some ("demo", .GOLANG) :=
  ⟨by decide, parse_appendTypeToName "demo" .GOLANG (by decide)⟩

/-- C6: The naming helper returns exactly the concatenation of the name,
the fixed delimiter `"_"`, and the type's canonical string form: the
artifact name is `<pipeline-name>_<pipeline-type-string>`. -/
theorem appendTypeToName_spec (n : String) (t : PipelineType) :
    appendTypeToName n t = n ++ "_" ++ PipelineType.str t
    ∧ (appendTypeToName n t).data = n.data ++ '_' :: (PipelineType.str t).data
    ∧ typeDelimiter = "_" :=
  ⟨rfl, appendTypeToName_data n t, rfl⟩

/-- C7: `ExecuteBuild` is bounded by a wall-clock ceiling whose default
value is 60 minutes; when the ceiling is exceeded the compiler process is
terminated and the stage fails with a `BuildTimeoutError` that is distinct
from an ordinary `BuildError`.  (Timeout behaviour modelled from the spec;
the ceiling constant `maxTimeoutMinutes` is from `src/`.) -/
theorem executeBuild_timeout_spec (elapsed : Nat) (ok : Bool)
    (h : elapsed > maxTimeoutMinutes) :
    maxTimeoutMinutes = 60
    ∧ (executeBuildModel elapsed ok).result = .error .BuildTimeoutError
    ∧ (executeBuildModel elapsed ok).processRunning = false
    ∧ BuildErrorKind.BuildTimeoutError ≠ BuildErrorKind.BuildError := by
  refine ⟨rfl, ?_, ?_, by decide⟩ <;> simp [executeBuildModel, if_pos h]

theorem executeBuild_timeout_spec_witness :
    (61 > maxTimeoutMinutes)
    ∧ (executeBuildModel 61 true).result = .error .BuildTimeoutError
    ∧ (executeBuildModel 61 true).processRunning = false := by
  have h := executeBuild_timeout_spec 61 true (by decide)
  exact ⟨by decide, h.2.1, h.2.2.1⟩

/-- C8: Whenever `Contains n` returns true at an entry that is not the
last element of the registry's sequence, the goroutine spawned by `Iter`
remains blocked sending on the unbuffered channel while still holding the
registry's exclusive lock, so every subsequent operation that must acquire
the lock blocks forever. -/
theorem contains_nonfinal_deadlock (ps : List Pipeline) (n : String) (i : Nat)
    (hfind : firstMatchIdx ps n = some i) (hlast : i + 1 < ps.length) :
    containsLoop ps n = true
    ∧ lockReleasedAfterContains ps n = false
    ∧ opBlocksForever (lockReleasedAfterContains ps n) = true := by
  have h1 := containsLoop_of_firstMatchIdx ps n i hfind
  have h2 : lockReleasedAfterContains ps n = false := by
    unfold lockReleasedAfterContains containsReceives iterLockReleased
    rw [hfind]
    simp [Nat.ne_of_lt hlast]
  exact ⟨h1, h2, by rw [h2]; rfl⟩

theorem contains_nonfinal_deadlock_witness :
    (firstMatchIdx [Pipeline.mk "a" .GOLANG, Pipeline.mk "b" .GOLANG] "a" = some 0)
    ∧ (0 + 1 < 2)
    ∧ containsLoop [Pipeline.mk "a" .GOLANG, Pipeline.mk "b" .GOLANG] "a" = true
    ∧ lockReleasedAfterContains [Pipeline.mk "a" .GOLANG, Pipeline.mk "b" .GOLANG] "a"
        = false
    ∧ opBlocksForever
        (lockReleasedAfterContains
          [Pipeline.mk "a" .GOLANG, Pipeline.mk "b" .GOLANG] "a") = true := by
  have h := contains_nonfinal_deadlock
    [Pipeline.mk "a" .GOLANG, Pipeline.mk "b" .GOLANG] "a" 0 (by decide) (by decide)
  exact ⟨by decide, by decide, h.1, h.2.1, h.2.2⟩

/-- C9 counterexample: the claimed collision does not exist — there are no
two distinct `(name, type)` pairs, with a name containing the delimiter,
that `appendTypeToName` encodes to the same artifact name. -/
theorem appendTypeToName_no_collision :
    ¬ ∃ (n1 n2 : String) (t1 t2 : PipelineType),
        '_' ∈ n1.data ∧ (n1, t1) ≠ (n2, t2)
        ∧ appendTypeToName n1 t1 = appendTypeToName n2 t2 := by
  rintro ⟨n1, n2, t1, t2, -, hne, heq⟩
  obtain ⟨hn, ht⟩ := appendTypeToName_injective n1 n2 t1 t2 heq
  exact hne (by rw [hn, ht])

/-- C9 (amended): `appendTypeToName` performs no validation of its name
argument, yet it is injective over all string names and the enumerated
pipeline types — the canonical type strings contain no delimiter and no
two encodings collide — so the encoding is invertible (by splitting at the
last delimiter) even without the legal-name precondition. -/
theorem appendTypeToName_injective_spec (n1 n2 : String) (t1 t2 : PipelineType)
    (h : appendTypeToName n1 t1 = appendTypeToName n2 t2) :
    n1 = n2 ∧ t1 = t2 :=
  appendTypeToName_injective n1 n2 t1 t2 h

theorem appendTypeToName_injective_spec_witness :
    (appendTypeToName "a_b" .GOLANG = appendTypeToName "a_b" .GOLANG)
    ∧ ("a_b" : String) = "a_b" ∧ PipelineType.GOLANG = PipelineType.GOLANG :=
  ⟨rfl, appendTypeToName_injective_spec "a_b" "a_b" .GOLANG .GOLANG rfl⟩

/-- C10: `NewActivePipelines` returns a registry whose `Pipelines`
sequence is empty, so on a freshly constructed registry `Contains` returns
false for every name and `Iter` yields no entries. -/
theorem newActivePipelines_spec (n : String) :
    NewActivePipelines.Pipelines = []
    ∧ NewActivePipelines.Pipelines.length = 0
    ∧ NewActivePipelines.Contains n = false
    ∧ NewActivePipelines.Iter = [] :=
  ⟨rfl, rfl, rfl, rfl⟩

end GaiaPipeline
